import Mathlib

/-!
Verification development for the japanai-demo-app repository.

The transport-boundary converter `convertToThreadMessages`, the
`SearchProductsUI` render function and the optimistic-message
`converter` of the two runtime-provider variants are embedded from
`frontend/app/MyRuntimeProvider.tsx` and its Anthropic-format variant.
The backend agent loop (`run_agent`) is not part of the source tree;
it is modelled from the specification together with the in-tree
documentation (`docs/as-is-guide.md`, `docs/tool-call-sequence-diagram.md`).
-/

/-- Model of a JavaScript JSON value, as produced by `JSON.parse`.
Numbers are restricted to integers (the fragments this code base
exchanges carry no fractional numerals); object members keep insertion
order, as JavaScript objects do. -/
inductive Json where
  | null : Json
  | bool (b : Bool) : Json
  | num (n : Int) : Json
  | str (s : String) : Json
  | arr (elems : List Json) : Json
  | obj (members : List (String × Json)) : Json

mutual

/-- Decidable equality for `Json`, spelled out because the automatic
derivation does not handle the nested occurrence in `arr`/`obj`. -/
def decEqJson : (a b : Json) → Decidable (a = b)
  | .null, .null => isTrue rfl
  | .bool x, .bool y =>
    match decEq x y with
    | isTrue h => isTrue (h ▸ rfl)
    | isFalse h => isFalse (fun hh => h (Json.bool.inj hh))
  | .num x, .num y =>
    match decEq x y with
    | isTrue h => isTrue (h ▸ rfl)
    | isFalse h => isFalse (fun hh => h (Json.num.inj hh))
  | .str x, .str y =>
    match decEq x y with
    | isTrue h => isTrue (h ▸ rfl)
    | isFalse h => isFalse (fun hh => h (Json.str.inj hh))
  | .arr x, .arr y =>
    match decEqJsonList x y with
    | isTrue h => isTrue (h ▸ rfl)
    | isFalse h => isFalse (fun hh => h (Json.arr.inj hh))
  | .obj x, .obj y =>
    match decEqJsonMembers x y with
    | isTrue h => isTrue (h ▸ rfl)
    | isFalse h => isFalse (fun hh => h (Json.obj.inj hh))
  | .null, .bool _ => isFalse (fun h => Json.noConfusion h)
  | .null, .num _ => isFalse (fun h => Json.noConfusion h)
  | .null, .str _ => isFalse (fun h => Json.noConfusion h)
  | .null, .arr _ => isFalse (fun h => Json.noConfusion h)
  | .null, .obj _ => isFalse (fun h => Json.noConfusion h)
  | .bool _, .null => isFalse (fun h => Json.noConfusion h)
  | .bool _, .num _ => isFalse (fun h => Json.noConfusion h)
  | .bool _, .str _ => isFalse (fun h => Json.noConfusion h)
  | .bool _, .arr _ => isFalse (fun h => Json.noConfusion h)
  | .bool _, .obj _ => isFalse (fun h => Json.noConfusion h)
  | .num _, .null => isFalse (fun h => Json.noConfusion h)
  | .num _, .bool _ => isFalse (fun h => Json.noConfusion h)
  | .num _, .str _ => isFalse (fun h => Json.noConfusion h)
  | .num _, .arr _ => isFalse (fun h => Json.noConfusion h)
  | .num _, .obj _ => isFalse (fun h => Json.noConfusion h)
  | .str _, .null => isFalse (fun h => Json.noConfusion h)
  | .str _, .bool _ => isFalse (fun h => Json.noConfusion h)
  | .str _, .num _ => isFalse (fun h => Json.noConfusion h)
  | .str _, .arr _ => isFalse (fun h => Json.noConfusion h)
  | .str _, .obj _ => isFalse (fun h => Json.noConfusion h)
  | .arr _, .null => isFalse (fun h => Json.noConfusion h)
  | .arr _, .bool _ => isFalse (fun h => Json.noConfusion h)
  | .arr _, .num _ => isFalse (fun h => Json.noConfusion h)
  | .arr _, .str _ => isFalse (fun h => Json.noConfusion h)
  | .arr _, .obj _ => isFalse (fun h => Json.noConfusion h)
  | .obj _, .null => isFalse (fun h => Json.noConfusion h)
  | .obj _, .bool _ => isFalse (fun h => Json.noConfusion h)
  | .obj _, .num _ => isFalse (fun h => Json.noConfusion h)
  | .obj _, .str _ => isFalse (fun h => Json.noConfusion h)
  | .obj _, .arr _ => isFalse (fun h => Json.noConfusion h)

/-- Decidable equality for lists of `Json` values. -/
def decEqJsonList : (as bs : List Json) → Decidable (as = bs)
  | [], [] => isTrue rfl
  | [], _ :: _ => isFalse (fun h => List.noConfusion h)
  | _ :: _, [] => isFalse (fun h => List.noConfusion h)
  | a :: as, b :: bs =>
    match decEqJson a b with
    | isTrue h1 =>
      match decEqJsonList as bs with
      | isTrue h2 => isTrue (h1 ▸ h2 ▸ rfl)
      | isFalse h2 => isFalse (fun hh => h2 (List.cons.inj hh).2
      )
    | isFalse h1 => isFalse (fun hh => h1 (List.cons.inj hh).1)

/-- Decidable equality for lists of `Json` object members. -/
def decEqJsonMembers : (as bs : List (String × Json)) → Decidable (as = bs)
  | [], [] => isTrue rfl
  | [], _ :: _ => isFalse (fun h => List.noConfusion h)
  | _ :: _, [] => isFalse (fun h => List.noConfusion h)
  | (k, v) :: as, (k2, v2) :: bs =>
    match decEq k k2 with
    | isTrue hk =>
      match decEqJson v v2 with
      | isTrue hv =>
        match decEqJsonMembers as bs with
        | isTrue h2 => isTrue (hk ▸ hv ▸ h2 ▸ rfl)
        | isFalse h2 => isFalse (fun hh => h2 (List.cons.inj hh).2)
      | isFalse hv =>
        isFalse (fun hh => hv (congrArg Prod.snd (List.cons.inj hh).1))
    | isFalse hk =>
      isFalse (fun hh => hk (congrArg Prod.fst (List.cons.inj hh).1))

end

instance : DecidableEq Json := decEqJson

/-- The opening-brace character, written via its code point. -/
def lbrace : Char := Char.ofNat 123

/-- The closing-brace character, written via its code point. -/
def rbrace : Char := Char.ofNat 125

/-- JSON whitespace characters. -/
def isJsonWs (c : Char) : Bool :=
  c = ' ' || c = '\n' || c = '\t' || c = '\r'

/-- Drop leading JSON whitespace. -/
def skipWs : List Char → List Char
  | [] => []
  | c :: cs => if isJsonWs c then skipWs cs else c :: cs

/-- Accumulate a run of decimal digits (the caller has checked that the
first character is a digit). -/
def takeDigits (acc : Nat) : List Char → Nat × List Char
  | [] => (acc, [])
  | c :: cs =>
    if c.isDigit then takeDigits (acc * 10 + (c.toNat - 48)) cs
    else (acc, c :: cs)

/-- Parse a JSON integer numeral (model restriction: fractional and
exponent syntax is not modelled, so such inputs fail to parse). -/
def parseNumber : List Char → Option (Json × List Char)
  | [] => none
  | '-' :: rest =>
    match rest with
    | c :: _ =>
      if c.isDigit then
        match takeDigits 0 rest with
        | (n, r) => some (Json.num (-(n : Int)), r)
      else none
    | [] => none
  | c :: cs =>
    if c.isDigit then
      match takeDigits 0 (c :: cs) with
      | (n, r) => some (Json.num (n : Int), r)
    else none

/-- Decode one string-escape character (backspace and form feed are
written via their code points). -/
def escChar (e : Char) : Option Char :=
  if e = 'n' then some '\n'
  else if e = 't' then some '\t'
  else if e = 'r' then some '\r'
  else if e = 'b' then some (Char.ofNat 8)
  else if e = 'f' then some (Char.ofNat 12)
  else if e = '"' || e = '\\' || e = '/' then some e
  else none

/-- Parse the body of a JSON string after the opening quote, returning
the decoded characters and the remaining input after the closing quote. -/
def parseStrBody : List Char → Option (List Char × List Char)
  | [] => none
  | '"' :: rest => some ([], rest)
  | '\\' :: e :: rest =>
    match escChar e, parseStrBody rest with
    | some c, some (acc, r) => some (c :: acc, r)
    | _, _ => none
  | c :: rest =>
    match parseStrBody rest with
    | some (acc, r) => some (c :: acc, r)
    | none => none

mutual

/-- Fuel-indexed recursive-descent parser for one JSON value. -/
def parseVal : Nat → List Char → Option (Json × List Char)
  | 0, _ => none
  | fuel + 1, cs =>
    match skipWs cs with
    | 'n' :: 'u' :: 'l' :: 'l' :: r => some (Json.null, r)
    | 't' :: 'r' :: 'u' :: 'e' :: r => some (Json.bool true, r)
    | 'f' :: 'a' :: 'l' :: 's' :: 'e' :: r => some (Json.bool false, r)
    | '"' :: r =>
      match parseStrBody r with
      | some (body, rest) => some (Json.str (String.mk body), rest)
      | none => none
    | c :: r =>
      if c = lbrace then
        match skipWs r with
        | d :: r2 =>
          if d = rbrace then some (Json.obj [], r2)
          else
            match parseMembers fuel (d :: r2) with
            | some (kvs, rest) => some (Json.obj kvs, rest)
            | none => none
        | [] => none
      else if c = '[' then
        match skipWs r with
        | d :: r2 =>
          if d = ']' then some (Json.arr [], r2)
          else
            match parseElems fuel (d :: r2) with
            | some (xs, rest) => some (Json.arr xs, rest)
            | none => none
        | [] => none
      else parseNumber (c :: r)
    | [] => none

/-- Parse the elements of a non-empty JSON array, consuming the closing
bracket. -/
def parseElems : Nat → List Char → Option (List Json × List Char)
  | 0, _ => none
  | fuel + 1, cs =>
    match parseVal fuel cs with
    | some (v, r) =>
      match skipWs r with
      | ',' :: r2 =>
        match parseElems fuel r2 with
        | some (xs, rest) => some (v :: xs, rest)
        | none => none
      | d :: r2 => if d = ']' then some ([v], r2) else none
      | [] => none
    | none => none

/-- Parse the members of a non-empty JSON object, consuming the closing
brace. -/
def parseMembers : Nat → List Char → Option (List (String × Json) × List Char)
  | 0, _ => none
  | fuel + 1, cs =>
    match skipWs cs with
    | '"' :: r =>
      match parseStrBody r with
      | some (key, r2) =>
        match skipWs r2 with
        | ':' :: r3 =>
          match parseVal fuel r3 with
          | some (v, r4) =>
            match skipWs r4 with
            | ',' :: r5 =>
              match parseMembers fuel r5 with
              | some (kvs, rest) => some ((String.mk key, v) :: kvs, rest)
              | none => none
            | d :: r5 =>
              if d = rbrace then some ([(String.mk key, v)], r5) else none
            | [] => none
          | none => none
        | _ => none
      | none => none
    | _ => none

end

/-- Model of JavaScript `JSON.parse`: `some` on success, `none` when the
input is not valid JSON (where the real function throws a `SyntaxError`). -/
def parseJson (s : String) : Option Json :=
  match parseVal (s.length + 1) s.data with
  | some (v, rest) => if (skipWs rest).isEmpty then some v else none
  | none => none

/-- Escape one character for JSON string output. -/
def escOut (c : Char) : List Char :=
  if c = '"' then ['\\', '"']
  else if c = '\\' then ['\\', '\\']
  else if c = '\n' then ['\\', 'n']
  else if c = '\t' then ['\\', 't']
  else if c = '\r' then ['\\', 'r']
  else [c]

/-- Serialize a string as a quoted JSON string literal. -/
def quoteStr (s : String) : String :=
  "\"" ++ String.mk (s.data.flatMap escOut) ++ "\""

mutual

/-- Model of JavaScript `JSON.stringify` (no spacing argument, so the
output carries no whitespace, matching `JSON.stringify(v)`). -/
def stringify : Json → String
  | .null => "null"
  | .bool true => "true"
  | .bool false => "false"
  | .num n => toString n
  | .str s => quoteStr s
  | .arr xs => "[" ++ stringifyElems xs ++ "]"
  | .obj kvs => String.mk [lbrace] ++ stringifyMembers kvs ++ String.mk [rbrace]

/-- Comma-separated serialization of array elements. -/
def stringifyElems : List Json → String
  | [] => ""
  | [x] => stringify x
  | x :: y :: rest => stringify x ++ "," ++ stringifyElems (y :: rest)

/-- Comma-separated serialization of object members. -/
def stringifyMembers : List (String × Json) → String
  | [] => ""
  | [(k, v)] => quoteStr k ++ ":" ++ stringify v
  | (k, v) :: m :: rest =>
    quoteStr k ++ ":" ++ stringify v ++ "," ++ stringifyMembers (m :: rest)

end

/-- Message role on the backend wire (`BackendMessage.role` in
MyRuntimeProvider, Anthropic-format variant). -/
inductive Role where
  | user : Role
  | assistant : Role
deriving DecidableEq

/-- A wire content block (`ContentBlock` in the Anthropic-format
runtime provider): text, tool_use, or tool_result. -/
inductive WireBlock where
  | text (text : String) : WireBlock
  | tool_use (id name : String) (input : Json) : WireBlock
  | tool_result (tool_use_id : String) (content : String) : WireBlock
deriving DecidableEq

/-- The content of a backend wire message: a plain string or an array
of content blocks (`string | ContentBlock[]`). -/
inductive WireContent where
  | str (s : String) : WireContent
  | blocks (bs : List WireBlock) : WireContent
deriving DecidableEq

/-- A backend wire message (`BackendMessage`). -/
structure BackendMessage where
  role : Role
  content : WireContent
deriving DecidableEq

/-- Role of a thread message shown in the UI. -/
inductive ThreadRole where
  | user : ThreadRole
  | assistant : ThreadRole
deriving DecidableEq

/-- Execution status of a tool-call part. The `@assistant-ui/react`
type also admits in-flight statuses; the converter under verification
only ever constructs `complete`. -/
inductive ToolStatus where
  | complete : ToolStatus
  | running : ToolStatus
  | requiresAction : ToolStatus
  | incomplete : ToolStatus
deriving DecidableEq

/-- A part of a thread message (`TextMessagePart | ToolCallMessagePart`).
`result = none` models the JavaScript `undefined` result. -/
inductive ThreadPart where
  | text (text : String) : ThreadPart
  | toolCall (toolCallId toolName : String) (args : Json) (argsText : String)
      (result : Option Json) (status : ToolStatus) : ThreadPart
deriving DecidableEq

/-- A thread message (`ThreadMessage`); `createdAt`, `attachments` and
the constant metadata fields carry no information and are outside the
embedding. -/
structure ThreadMessage where
  id : String
  role : ThreadRole
  content : List ThreadPart
deriving DecidableEq

/-- The id assigned to the thread message built from input index `i`
(the template string `msg-` followed by the index). -/
def mkId (i : Nat) : String := "msg-" ++ toString i

/-- JavaScript `Array.prototype.join` with separator `"\n"`, as used on
the filtered text blocks. -/
def joinNL : List String → String
  | [] => ""
  | [t] => t
  | t :: u :: rest => t ++ "\n" ++ joinNL (u :: rest)

/-- Whether a wire block is a `tool_result` block (the filter predicate
of the user-message branch). -/
def isToolResultB : WireBlock → Bool
  | .tool_result _ _ => true
  | _ => false

/-- The text of a text block (`filter`+`map` of the user-message branch
combined into one `filterMap`). -/
def textOf : WireBlock → Option String
  | .text t => some t
  | _ => none

/-- The user-message branch of `convertToThreadMessages` for array
content: skip the whole message when it holds any tool_result block,
otherwise join the text blocks with a newline and keep the message only
when the joined text is non-empty (JavaScript truthiness of the string). -/
def userArrayMsg (i : Nat) (bs : List WireBlock) : List ThreadMessage :=
  if (bs.filter isToolResultB).isEmpty then
    if joinNL (bs.filterMap textOf) ≠ "" then
      [⟨mkId i, ThreadRole.user, [ThreadPart.text (joinNL (bs.filterMap textOf))]⟩]
    else []
  else []

/-- The predicate used to find a matching tool_result block in the
following message (`b.type === "tool_result" && b.tool_use_id === block.id`). -/
def isToolResultFor (id : String) : WireBlock → Bool
  | .tool_result tid _ => tid == id
  | _ => false

/-- Result lookup for a tool_use block with the given id: scan the
immediately following message; when it exists and has array content,
take the first matching tool_result block and parse its content as JSON,
falling back to the raw string on parse failure (`try`/`catch` around
`JSON.parse`); otherwise the result stays `undefined`. -/
def lookupResult (next? : Option BackendMessage) (id : String) : Option Json :=
  match next? with
  | some m =>
    match m.content with
    | .blocks bs =>
      match bs.find? (isToolResultFor id) with
      | some (.tool_result _ c) =>
        some (match parseJson c with
          | some v => v
          | none => Json.str c)
      | _ => none
    | _ => none
  | none => none

/-- The assistant-message content loop: an empty text block contributes
nothing (JavaScript truthiness of `block.text`), a tool_use block
becomes a complete tool-call part with `argsText = JSON.stringify(input)`
and the looked-up result, and a tool_result block contributes nothing. -/
def assistantParts (next? : Option BackendMessage) : List WireBlock → List ThreadPart
  | [] => []
  | b :: rest =>
    (match b with
      | .text t => if t ≠ "" then [ThreadPart.text t] else []
      | .tool_use id name input =>
        [ThreadPart.toolCall id name input (stringify input)
          (lookupResult next? id) ToolStatus.complete]
      | .tool_result _ _ => []) ++ assistantParts next? rest

/-- The body of one iteration of the `convertToThreadMessages` loop:
the thread messages pushed for input index `i` (zero or one). An
assistant message with string content is wrapped into a single text
block; an assistant message is pushed only when its converted content
is non-empty. -/
def convertOne (msgs : List BackendMessage) (i : Nat) : List ThreadMessage :=
  match msgs[i]? with
  | none => []
  | some msg =>
    match msg.role, msg.content with
    | Role.user, .str t =>
      [⟨mkId i, ThreadRole.user, [ThreadPart.text t]⟩]
    | Role.user, .blocks bs => userArrayMsg i bs
    | Role.assistant, .str t =>
      if (assistantParts msgs[i + 1]? [WireBlock.text t]).isEmpty then []
      else
        [⟨mkId i, ThreadRole.assistant, assistantParts msgs[i + 1]? [WireBlock.text t]⟩]
    | Role.assistant, .blocks bs =>
      if (assistantParts msgs[i + 1]? bs).isEmpty then []
      else [⟨mkId i, ThreadRole.assistant, assistantParts msgs[i + 1]? bs⟩]

/-- `convertToThreadMessages` (Anthropic-format runtime provider):
the `for` loop over the input indices, each iteration pushing the
messages of `convertOne`. -/
def convertToThreadMessages (msgs : List BackendMessage) : List ThreadMessage :=
  (List.range msgs.length).flatMap (convertOne msgs)

/-- Modelled from the spec: the serializing direction `toWire` of the
Format Adapter is not part of the source tree (it lives in the backend);
per the spec it maps the canonical role/content-block shape to the wire
schema, emitting assistant blocks as typed blocks and injecting each
tool result as a user-role message holding a tool_result block that
references the invocation id (raw string payloads are sent verbatim,
other payloads are serialized). -/
def resultContent : Json → String
  | .str s => s
  | v => stringify v

/-- Modelled from the spec: a user message keeps its text parts as text
blocks on the wire. -/
def partToUserBlock : ThreadPart → Option WireBlock
  | .text t => some (WireBlock.text t)
  | _ => none

/-- Modelled from the spec: `toWire` on one canonical message (see
`resultContent`): assistant text and tool-call parts become text and
tool_use blocks, and the collected results of the tool-call parts are
appended as one following user-role message of tool_result blocks. -/
def toWireMsg (m : ThreadMessage) : List BackendMessage :=
  match m.role with
  | ThreadRole.user =>
    [⟨Role.user, WireContent.blocks (m.content.filterMap partToUserBlock)⟩]
  | ThreadRole.assistant =>
    let blocks := m.content.filterMap (fun p =>
      match p with
      | .text t => some (WireBlock.text t)
      | .toolCall id name args _ _ _ => some (WireBlock.tool_use id name args))
    let results := m.content.filterMap (fun p =>
      match p with
      | .toolCall id _ _ _ (some r) _ =>
        some (WireBlock.tool_result id (resultContent r))
      | _ => none)
    ⟨Role.assistant, WireContent.blocks blocks⟩ ::
      (if results.isEmpty then [] else [⟨Role.user, WireContent.blocks results⟩])

/-- Modelled from the spec: `toWire` on a whole conversation. -/
def toWire (ms : List ThreadMessage) : List BackendMessage :=
  ms.flatMap toWireMsg

/-- A conversation of plain user text turns with the canonical ids the
converter assigns; used to state the restricted round-trip law. -/
def mkUserThread : Nat → List String → List ThreadMessage
  | _, [] => []
  | i, t :: ts =>
    ⟨mkId i, ThreadRole.user, [ThreadPart.text t]⟩ :: mkUserThread (i + 1) ts

/-- One round of model output as the agent loop sees it after the
stream of the round has been fully consumed: the narration text and the
completed tool invocations `(id, name, argumentBuffer)` in arrival
order. -/
structure ModelRound where
  text : String
  invocations : List (String × String × String)
deriving DecidableEq

/-- Outbound events of the agent loop (`text_delta`, `tool_call_start`,
`tool_result`, and the terminal completion of the stream). -/
inductive AgentEvent where
  | textDelta (t : String) : AgentEvent
  | toolCallStart (id name : String) : AgentEvent
  | toolResult (id name : String) (payload : Json) : AgentEvent
  | complete : AgentEvent
deriving DecidableEq

/-- Modelled from the spec: argument assembly at tool-call end — the
accumulated `argumentBuffer` is parsed as JSON and a parse failure
falls back to the empty object while the invocation is still executed
(fail open). -/
def assembledArgs (buf : String) : Json :=
  (parseJson buf).getD (Json.obj [])

/-- Events emitted during one round, in fragment arrival order: the
round's text, then per invocation its start event followed by its
resolved result event. -/
def roundEvents (exec : String → Json → Json) (r : ModelRound) : List AgentEvent :=
  AgentEvent.textDelta r.text ::
    r.invocations.flatMap (fun inv =>
      [AgentEvent.toolCallStart inv.1 inv.2.1,
       AgentEvent.toolResult inv.1 inv.2.1 (exec inv.2.1 (assembledArgs inv.2.2))])

/-- Modelled from the spec: the backend agent loop `run_agent` is not
part of the source tree; per `docs/as-is-guide.md` it keeps re-querying
the model until a round holds no tool_use blocks, and per
`docs/tool-call-sequence-diagram.md` it then finalizes the response and
completes the stream. `model k` is the model's output for round `k`,
`fuel` is the number of rounds we are willing to observe; the value is
`some (rounds, events)` when the loop reaches its successful exit
within `fuel` rounds and `none` when it is still looping after `fuel`
rounds. The loop has no other exit: the documented code has no round
budget and no failure transition. -/
def runAgent (model : Nat → ModelRound) (exec : String → Json → Json) :
    Nat → Nat → Option (Nat × List AgentEvent)
  | 0, _ => none
  | fuel + 1, k =>
    let r := model k
    if r.invocations.isEmpty then
      some (k + 1, roundEvents exec r ++ [AgentEvent.complete])
    else
      match runAgent model exec fuel (k + 1) with
      | some (n, evs) => some (n, roundEvents exec r ++ evs)
      | none => none

/-- The number of terminal completion events in an event list. -/
def countComplete (evs : List AgentEvent) : Nat :=
  evs.countP (fun e =>
    match e with
    | AgentEvent.complete => true
    | _ => false)

/-- A model stub that returns a tool invocation on every round. -/
def alwaysToolModel : Nat → ModelRound :=
  fun _ => ⟨"", [("t1", "search_products", "\x7b\x7d")]⟩

/-- A tool executor stub returning `null` for every invocation. -/
def nullExec : String → Json → Json := fun _ _ => Json.null

/-- Modelled from the spec: the orchestrator's transient accumulator for
a streaming tool call. -/
structure PendingToolCall where
  id : String
  name : String
  argumentBuffer : String
deriving DecidableEq

/-- A fully assembled tool invocation together with the orchestrator's
decision whether it is executed. -/
structure ToolInvocation where
  id : String
  name : String
  arguments : Json
  flaggedForExecution : Bool
deriving DecidableEq

/-- Modelled from the spec: the tool-call-end handling of the
orchestrator (not part of the source tree): parse `argumentBuffer` as
JSON, fall back to the empty object on parse failure, and flag the
invocation for execution in either case. -/
def finishToolCall (p : PendingToolCall) : ToolInvocation :=
  { id := p.id
    name := p.name
    arguments := assembledArgs p.argumentBuffer
    flaggedForExecution := true }

/-- Outcome of the `SearchProductsUI` render function: the loading
table (absent or falsy result), the data table handed the value that
reaches `parseSerializableDataTable`, or a thrown exception. -/
inductive RenderOutcome where
  | loadingTable : RenderOutcome
  | dataTable (value : Json) : RenderOutcome
  | thrown (message : String) : RenderOutcome
deriving DecidableEq

/-- JavaScript falsiness of a JSON value (the `!result` check; `NaN`
does not arise in the integer-number model). -/
def jsFalsy : Json → Bool
  | .null => true
  | .bool b => !b
  | .num n => n == 0
  | .str s => s == ""
  | _ => false

/-- The render function of `SearchProductsUI`: absent or falsy results
render the loading table; a string result goes through an unguarded
`JSON.parse` — it renders the parsed value when the string is valid
JSON and throws a `SyntaxError` otherwise; any other value is handed to
`parseSerializableDataTable` directly (that component is outside the
source tree, so the outcome records the value it receives). -/
def renderSearchProducts (result : Option Json) : RenderOutcome :=
  match result with
  | none => RenderOutcome.loadingTable
  | some v =>
    if jsFalsy v then RenderOutcome.loadingTable
    else
      match v with
      | Json.str s =>
        match parseJson s with
        | some parsed => RenderOutcome.dataTable parsed
        | none => RenderOutcome.thrown "SyntaxError"
      | _ => RenderOutcome.dataTable v

/-- A part of a composer message carried by an `add-message` command:
its `type` tag and, for text parts, its text. -/
inductive MsgPart where
  | textPart (text : String) : MsgPart
  | otherPart : MsgPart
deriving DecidableEq

/-- A pending command of the transport connection (`type` is
`add-message` for message submissions). -/
structure PendingCommand where
  type : String
  parts : List MsgPart
deriving DecidableEq

/-- `p.type === "text" ? p.text : ""` on one part. -/
def partText : MsgPart → String
  | .textPart t => t
  | .otherPart => ""

/-- The optimistic text of an `add-message` command: the part texts
joined with a newline. -/
def joinedText (ps : List MsgPart) : String :=
  joinNL (ps.map partText)

/-- The optimistic-message builder of the Anthropic-format runtime
provider's `converter`: a `flatMap` over the pending commands, each
`add-message` command yielding one user wire message with the joined
text as string content. -/
def optimisticBackend (cmds : List PendingCommand) : List BackendMessage :=
  cmds.flatMap (fun c =>
    if c.type = "add-message" then
      [⟨Role.user, WireContent.str (joinedText c.parts)⟩]
    else [])

/-- A LangChain state message (`type` is `human` for user turns). -/
structure LangChainMessage where
  type : String
  content : String
deriving DecidableEq

/-- The optimistic-message builder of
`frontend/app/MyRuntimeProvider.tsx`: a `map` over the pending
commands, each `add-message` command yielding a singleton list with one
human message. -/
def optimisticLangChainLists (cmds : List PendingCommand) : List (List LangChainMessage) :=
  cmds.map (fun c =>
    if c.type = "add-message" then
      [⟨"human", joinedText c.parts⟩]
    else [])

/-- The flattened optimistic messages of
`frontend/app/MyRuntimeProvider.tsx` (`.flat()` on the mapped lists). -/
def optimisticLangChain (cmds : List PendingCommand) : List LangChainMessage :=
  (optimisticLangChainLists cmds).flatten

/-- The message list the Anthropic-format `converter` hands to
`convertToThreadMessages`: state messages first, optimistic messages
appended. -/
def allMessagesBackend (state : List BackendMessage) (cmds : List PendingCommand) :
    List BackendMessage :=
  state ++ optimisticBackend cmds

/-- The message list `frontend/app/MyRuntimeProvider.tsx` hands to its
LangChain message converter: state messages first, optimistic messages
appended. -/
def allMessagesLangChain (state : List LangChainMessage) (cmds : List PendingCommand) :
    List LangChainMessage :=
  state ++ optimisticLangChain cmds

/-- The shape correspondence between the two optimistic encodings: a
human LangChain message denotes a user wire message with the same text
as string content. -/
def langToBackend (m : LangChainMessage) : BackendMessage :=
  ⟨Role.user, WireContent.str m.content⟩

lemma flatMap_range_toList {α : Type} (l : List α) (f : Nat → List α)
    (h : ∀ i, f i = l[i]?.toList) :
    (List.range l.length).flatMap f = l := by
  induction l generalizing f with
  | nil => simp
  | cons x xs ih =>
    have h0 : f 0 = [x] := by simpa using h 0
    have hs : ∀ i, (fun i => f (i + 1)) i = xs[i]?.toList := by
      intro i
      simpa using h (i + 1)
    calc (List.range (x :: xs).length).flatMap f
        = f 0 ++ ((List.range xs.length).map Nat.succ).flatMap f := by
          rw [List.length_cons, List.range_succ_eq_map, List.flatMap_cons]
      _ = f 0 ++ (List.range xs.length).flatMap (fun i => f (i + 1)) := by
          rw [List.flatMap_map]
      _ = x :: xs := by rw [h0, ih _ hs]; rfl

lemma convertOne_id (msgs : List BackendMessage) (i : Nat) (tm : ThreadMessage)
    (h : tm ∈ convertOne msgs i) : tm.id = mkId i := by
  unfold convertOne userArrayMsg at h
  split at h
  · simp at h
  · split at h
    · simp at h; rw [h]
    · split at h
      · split at h
        · simp at h; rw [h]
        · simp at h
      · simp at h
    · split at h
      · simp at h
      · simp at h; rw [h]
    · split at h
      · simp at h
      · simp at h; rw [h]

lemma convertOne_length (msgs : List BackendMessage) (i : Nat) :
    (convertOne msgs i).length ≤ 1 := by
  unfold convertOne userArrayMsg
  split
  · simp
  · split
    · simp
    · split
      · split
        · simp
        · simp
      · simp
    · split
      · simp
      · simp
    · split
      · simp
      · simp

/-- The per-block part a wire block of an assistant message is rendered
to, written independently of the conversion loop: a non-empty text
block yields a text part, a tool_use block yields a complete tool-call
part, and empty text blocks and tool_result blocks yield nothing. -/
def blockToPart (next? : Option BackendMessage) : WireBlock → Option ThreadPart
  | .text t => if t = "" then none else some (ThreadPart.text t)
  | .tool_use id name input =>
    some (ThreadPart.toolCall id name input (stringify input)
      (lookupResult next? id) ToolStatus.complete)
  | .tool_result _ _ => none

lemma assistantParts_eq_filterMap (next? : Option BackendMessage)
    (bs : List WireBlock) :
    assistantParts next? bs = bs.filterMap (blockToPart next?) := by
  induction bs with
  | nil => rfl
  | cons b rest ih =>
    rcases b with t | ⟨id, name, input⟩ | ⟨tid, c⟩
    · by_cases ht : t = ""
      · simp [assistantParts, blockToPart, ht, ih]
      · simp [assistantParts, blockToPart, ht, ih]
    · simp [assistantParts, blockToPart, ih]
    · simp [assistantParts, blockToPart, ih]

lemma mem_convert_of_mem_convertOne (msgs : List BackendMessage) (i : Nat)
    (tm : ThreadMessage) (hi : i < msgs.length) (h : tm ∈ convertOne msgs i) :
    tm ∈ convertToThreadMessages msgs := by
  unfold convertToThreadMessages
  rw [List.mem_flatMap]
  exact ⟨i, List.mem_range.mpr hi, h⟩

lemma toolCall_mem_assistantParts (next? : Option BackendMessage)
    (bs : List WireBlock) (id name : String) (input : Json)
    (hb : WireBlock.tool_use id name input ∈ bs) :
    ThreadPart.toolCall id name input (stringify input)
      (lookupResult next? id) ToolStatus.complete ∈ assistantParts next? bs := by
  rw [assistantParts_eq_filterMap]
  rw [List.mem_filterMap]
  exact ⟨WireBlock.tool_use id name input, hb, rfl⟩

lemma toolCall_mem_content (msgs : List BackendMessage) (i : Nat)
    (bs : List WireBlock) (id name : String) (input : Json)
    (hm : msgs[i]? = some ⟨Role.assistant, WireContent.blocks bs⟩)
    (hb : WireBlock.tool_use id name input ∈ bs) :
    ∃ tm, tm ∈ convertToThreadMessages msgs ∧ tm.id = mkId i ∧
      tm.role = ThreadRole.assistant ∧
      ThreadPart.toolCall id name input (stringify input)
        (lookupResult msgs[i + 1]? id) ToolStatus.complete ∈ tm.content := by
  have hpart := toolCall_mem_assistantParts msgs[i + 1]? bs id name input hb
  have hne : (assistantParts msgs[i + 1]? bs).isEmpty = false := by
    rcases hp : assistantParts msgs[i + 1]? bs with _ | _
    · rw [hp] at hpart; simp at hpart
    · rfl
  have hone : convertOne msgs i =
      [⟨mkId i, ThreadRole.assistant, assistantParts msgs[i + 1]? bs⟩] := by
    unfold convertOne
    rw [hm]
    simp only [hne]
    rfl
  refine ⟨⟨mkId i, ThreadRole.assistant, assistantParts msgs[i + 1]? bs⟩, ?_, rfl, rfl, hpart⟩
  apply mem_convert_of_mem_convertOne msgs i _ ?_ ?_
  · exact (List.getElem?_eq_some_iff.mp hm).1
  · rw [hone]; exact List.mem_singleton.mpr rfl

lemma toolCall_in_assistantParts_shape (next? : Option BackendMessage)
    (bs : List WireBlock) (id name : String) (args : Json) (argsTxt : String)
    (res : Option Json) (st : ToolStatus)
    (h : ThreadPart.toolCall id name args argsTxt res st ∈ assistantParts next? bs) :
    st = ToolStatus.complete ∧ argsTxt = stringify args ∧
      res = lookupResult next? id := by
  rw [assistantParts_eq_filterMap, List.mem_filterMap] at h
  obtain ⟨b, _, hbp⟩ := h
  rcases b with t | ⟨id', name', input'⟩ | ⟨tid, c⟩
  · by_cases ht : t = "" <;> simp [blockToPart, ht] at hbp
  · simp only [blockToPart, Option.some.injEq] at hbp
    obtain ⟨h1, h2, h3, h4, h5, h6⟩ := ThreadPart.toolCall.inj hbp
    constructor
    · exact h6.symm
    constructor
    · rw [← h3, h4]
    · rw [← h5, h1]
  · simp [blockToPart] at hbp

lemma convertOne_content (msgs : List BackendMessage) (i : Nat) (tm : ThreadMessage)
    (h : tm ∈ convertOne msgs i) :
    (∃ t, tm.content = [ThreadPart.text t]) ∨
      (∃ bs, tm.content = assistantParts msgs[i + 1]? bs) := by
  unfold convertOne userArrayMsg at h
  split at h
  · simp at h
  · split at h
    · simp at h; rw [h]; exact Or.inl ⟨_, rfl⟩
    · split at h
      · split at h
        · simp at h; rw [h]; exact Or.inl ⟨_, rfl⟩
        · simp at h
      · simp at h
    · split at h
      · simp at h
      · simp at h; rw [h]; exact Or.inr ⟨_, rfl⟩
    · split at h
      · simp at h
      · simp at h; rw [h]; exact Or.inr ⟨_, rfl⟩

/-- Claim C8: every tool-call part emitted by `convertToThreadMessages`
has complete status and `argsText` equal to `JSON.stringify` of the
block's input — also when no matching tool_result exists in the
following message (the result is then absent); the converter never
produces a pending or running status for a tool call. -/
theorem toolcall_parts_complete_status :
    ∀ (msgs : List BackendMessage) (tm : ThreadMessage)
      (id name : String) (args : Json) (argsTxt : String)
      (res : Option Json) (st : ToolStatus),
      tm ∈ convertToThreadMessages msgs →
      ThreadPart.toolCall id name args argsTxt res st ∈ tm.content →
      st = ToolStatus.complete ∧ argsTxt = stringify args := by
  intro msgs tm id name args argsTxt res st htm hpart
  unfold convertToThreadMessages at htm
  rw [List.mem_flatMap] at htm
  obtain ⟨i, _, hone⟩ := htm
  rcases convertOne_content msgs i tm hone with ⟨t, hc⟩ | ⟨bs, hc⟩
  · rw [hc] at hpart
    simp at hpart
  · rw [hc] at hpart
    have := toolCall_in_assistantParts_shape msgs[i + 1]? bs id name args argsTxt
      res st hpart
    exact ⟨this.1, this.2.1⟩

/-- Claim C8 witness: a concrete assistant tool_use block with no
matching tool_result in the following message still yields a complete
tool-call part with serialized `argsText` and an absent result. -/
theorem toolcall_parts_complete_status_witness :
    ToolStatus.complete = ToolStatus.complete ∧
      "\x7b\x7d" = stringify (Json.obj []) :=
  toolcall_parts_complete_status
    [⟨Role.assistant, WireContent.blocks [WireBlock.tool_use "t1" "search" (Json.obj [])]⟩]
    ⟨"msg-0", ThreadRole.assistant,
      [ThreadPart.toolCall "t1" "search" (Json.obj []) "\x7b\x7d" none ToolStatus.complete]⟩
    "t1" "search" (Json.obj []) "\x7b\x7d" none ToolStatus.complete
    (by decide) (by decide)

lemma flatMap_convertOne_ids (msgs : List BackendMessage) :
    ∀ l : List Nat,
      ((l.flatMap (convertOne msgs)).map ThreadMessage.id) =
        (l.filter (fun i => !(convertOne msgs i).isEmpty)).map mkId := by
  intro l
  induction l with
  | nil => rfl
  | cons i l ih =>
    rw [List.flatMap_cons, List.map_append, ih]
    rcases hone : convertOne msgs i with _ | ⟨tm, rest⟩
    · simp [List.filter_cons, hone]
    · have hlen := convertOne_length msgs i
      rw [hone] at hlen
      rcases rest with _ | ⟨tm2, rest2⟩
      · have hid : tm.id = mkId i :=
          convertOne_id msgs i tm (by rw [hone]; exact List.mem_singleton.mpr rfl)
        simp [List.filter_cons, hone, hid]
      · simp at hlen

/-- Claim C6: `convertToThreadMessages` preserves order. The output
ids are exactly the ids of the contributing input indices, listed in
input order (each input index contributes at most one output message,
so the outputs stand in the same relative order as the inputs they come
from); and within an assistant message the converted content is a
`filterMap` over the input blocks, so the text and tool-call parts
stand in the same relative order as the content blocks they come from. -/
theorem convert_preserves_order :
    (∀ msgs : List BackendMessage,
      (convertToThreadMessages msgs).map ThreadMessage.id =
        ((List.range msgs.length).filter
          (fun i => !(convertOne msgs i).isEmpty)).map mkId) ∧
    (∀ (next? : Option BackendMessage) (bs : List WireBlock),
      assistantParts next? bs = bs.filterMap (blockToPart next?)) := by
  constructor
  · intro msgs
    unfold convertToThreadMessages
    exact flatMap_convertOne_ids msgs (List.range msgs.length)
  · exact assistantParts_eq_filterMap

/-- Claim C9: for a string-typed result that is not valid JSON the
render function of `SearchProductsUI` throws (the `JSON.parse` on the
string branch is unguarded) instead of returning a rendered element,
while the absent-result branch and every non-string result never
reach that parse and never throw. -/
theorem searchproducts_render_throws_on_bad_json_string :
    renderSearchProducts (some (Json.str "not json")) =
      RenderOutcome.thrown "SyntaxError" ∧
    (∀ m, renderSearchProducts none ≠ RenderOutcome.thrown m) ∧
    (∀ m, renderSearchProducts (some Json.null) ≠ RenderOutcome.thrown m) ∧
    (∀ b m, renderSearchProducts (some (Json.bool b)) ≠ RenderOutcome.thrown m) ∧
    (∀ n m, renderSearchProducts (some (Json.num n)) ≠ RenderOutcome.thrown m) ∧
    (∀ xs m, renderSearchProducts (some (Json.arr xs)) ≠ RenderOutcome.thrown m) ∧
    (∀ kvs m, renderSearchProducts (some (Json.obj kvs)) ≠ RenderOutcome.thrown m) := by
  refine ⟨by decide, ?_, ?_, ?_, ?_, ?_, ?_⟩
  · intro m h
    simp [renderSearchProducts] at h
  · intro m h
    simp [renderSearchProducts, jsFalsy] at h
  · intro b m h
    rcases b with _ | _ <;> simp [renderSearchProducts, jsFalsy] at h
  · intro n m h
    by_cases hn : n = 0 <;> simp [renderSearchProducts, jsFalsy, hn] at h
  · intro xs m h
    simp [renderSearchProducts, jsFalsy] at h
  · intro kvs m h
    simp [renderSearchProducts, jsFalsy] at h

/-- Claim C10: the two runtime-provider variants build equivalent
optimistic user messages. Each builder maps exactly the `add-message`
commands, in command order, to one user/human message carrying the
newline-joined text parts (non-text parts contributing the empty
string); the LangChain outputs translate pointwise to the backend
outputs; and both variants append the optimistic messages after the
state messages. -/
theorem converters_optimistic_equivalent :
    (∀ cmds : List PendingCommand,
      optimisticBackend cmds =
        (cmds.filter (fun c => c.type = "add-message")).map
          (fun c => ⟨Role.user, WireContent.str (joinedText c.parts)⟩)) ∧
    (∀ cmds : List PendingCommand,
      optimisticLangChain cmds =
        (cmds.filter (fun c => c.type = "add-message")).map
          (fun c => ⟨"human", joinedText c.parts⟩)) ∧
    (∀ cmds : List PendingCommand,
      (optimisticLangChain cmds).map langToBackend = optimisticBackend cmds) ∧
    (∀ (state : List BackendMessage) (cmds : List PendingCommand),
      allMessagesBackend state cmds = state ++ optimisticBackend cmds) ∧
    (∀ (state : List LangChainMessage) (cmds : List PendingCommand),
      allMessagesLangChain state cmds = state ++ optimisticLangChain cmds) := by
  have hb : ∀ cmds : List PendingCommand,
      optimisticBackend cmds =
        (cmds.filter (fun c => c.type = "add-message")).map
          (fun c => (⟨Role.user, WireContent.str (joinedText c.parts)⟩ : BackendMessage)) := by
    intro cmds
    induction cmds with
    | nil => rfl
    | cons c cmds ih =>
      by_cases hc : c.type = "add-message" <;>
        simp [optimisticBackend, List.filter_cons, hc, List.flatMap_cons] at ih ⊢ <;>
        exact ih
  have hl : ∀ cmds : List PendingCommand,
      optimisticLangChain cmds =
        (cmds.filter (fun c => c.type = "add-message")).map
          (fun c => (⟨"human", joinedText c.parts⟩ : LangChainMessage)) := by
    intro cmds
    induction cmds with
    | nil => rfl
    | cons c cmds ih =>
      by_cases hc : c.type = "add-message" <;>
        simp [optimisticLangChain, optimisticLangChainLists, List.filter_cons, hc]
          at ih ⊢ <;> exact ih
  refine ⟨hb, hl, ?_, fun _ _ => rfl, fun _ _ => rfl⟩
  intro cmds
  rw [hb, hl, List.map_map]
  rfl

/-- Claim C7: at tool-call end the orchestrator parses the accumulated
argument buffer as JSON; when the buffer is not valid JSON it treats
the arguments as the empty object and still flags the invocation for
execution, keeping its id and name (fail open), rather than rejecting
or dropping the invocation. -/
theorem toolcall_end_fail_open :
    ∀ p : PendingToolCall, parseJson p.argumentBuffer = none →
      (finishToolCall p).arguments = Json.obj [] ∧
      (finishToolCall p).flaggedForExecution = true ∧
      (finishToolCall p).id = p.id ∧ (finishToolCall p).name = p.name := by
  intro p hp
  refine ⟨?_, rfl, rfl, rfl⟩
  unfold finishToolCall assembledArgs
  rw [hp]
  rfl

/-- Claim C7 witness: a concrete buffer that is not valid JSON is
assembled into the empty object and the invocation stays flagged for
execution. -/
theorem toolcall_end_fail_open_witness :
    (finishToolCall ⟨"t1", "search_products", "not json"⟩).arguments = Json.obj [] ∧
      (finishToolCall ⟨"t1", "search_products", "not json"⟩).flaggedForExecution = true ∧
      (finishToolCall ⟨"t1", "search_products", "not json"⟩).id = "t1" ∧
      (finishToolCall ⟨"t1", "search_products", "not json"⟩).name = "search_products" :=
  toolcall_end_fail_open ⟨"t1", "search_products", "not json"⟩ (by decide)

lemma countComplete_roundEvents (exec : String → Json → Json) (r : ModelRound) :
    countComplete (roundEvents exec r) = 0 := by
  unfold countComplete roundEvents
  rw [List.countP_eq_zero]
  intro e he
  rw [List.mem_cons] at he
  rcases he with rfl | he
  · simp
  · rw [List.mem_flatMap] at he
    obtain ⟨inv, _, he⟩ := he
    rw [List.mem_cons] at he
    rcases he with rfl | he
    · simp
    · rw [List.mem_singleton] at he
      subst he
      simp

/-- Claim C5: when the first model round ends with no completed tool
invocations, the agent loop takes its only successful exit at once: it
stops after exactly one round and the event stream carries exactly one
terminal completion; in particular a model stub that always returns
`end_turn` with no invocations terminates after one round with a single
completion event. -/
theorem end_turn_single_round_complete :
    ∀ (model : Nat → ModelRound) (exec : String → Json → Json) (fuel : Nat),
      (model 0).invocations = [] →
      runAgent model exec (fuel + 1) 0 =
          some (1, roundEvents exec (model 0) ++ [AgentEvent.complete]) ∧
        countComplete (roundEvents exec (model 0) ++ [AgentEvent.complete]) = 1 := by
  intro model exec fuel h
  constructor
  · unfold runAgent
    simp [h]
  · unfold countComplete
    rw [List.countP_append]
    have h0 := countComplete_roundEvents exec (model 0)
    unfold countComplete at h0
    rw [h0]
    rfl

/-- Claim C5 witness: the concrete always-`end_turn` model stub stops
after exactly one round with a single completion event. -/
theorem end_turn_single_round_complete_witness :
    runAgent (fun _ => ⟨"done", []⟩) nullExec 1 0 =
        some (1, roundEvents nullExec ⟨"done", []⟩ ++ [AgentEvent.complete]) ∧
      countComplete (roundEvents nullExec ⟨"done", []⟩ ++ [AgentEvent.complete]) = 1 :=
  end_turn_single_round_complete (fun _ => ⟨"done", []⟩) nullExec 0 rfl

/-- Claim C4 (failing input): the agent loop of the source has no round
budget — per the repository's own architecture guide it keeps
re-querying the model while tool_use blocks are present — so with a
model stub that returns a tool invocation on every round it never
reaches a terminal event, for any number of observed rounds, instead of
stopping after a configured maximum with a `LoopBudgetExceeded`
failure (the modelled loop has no failure transition at all). -/
theorem agent_loop_never_terminates_always_tool :
    ∀ fuel k, runAgent alwaysToolModel nullExec fuel k = none := by
  intro fuel
  induction fuel with
  | zero => intro k; rfl
  | succ n ih =>
    intro k
    unfold runAgent
    simp only [alwaysToolModel, List.isEmpty_cons, Bool.false_eq_true, if_false, ih (k + 1)]

/-- Claim C2 counterexample: a wire input whose single user message
carries a text block alongside a tool_result block converts to the
empty output — the text content is discarded and no error of any kind
is raised (the converter is a total function with no failure channel),
contradicting the claim that content is never silently dropped. -/
theorem toolresult_message_text_dropped_cex :
    convertToThreadMessages
        [⟨Role.user, WireContent.blocks
          [WireBlock.text "hello", WireBlock.tool_result "t1" "ok"]⟩] = [] := by
  decide

/-- Claim C2 (amended): conversion is total — malformed input is never
rejected and no `FormatError` exists — and content can be silently
dropped: a user message whose array content contains any tool_result
block contributes no thread message at all, even when it also contains
text blocks. -/
theorem user_toolresult_message_dropped :
    ∀ (msgs : List BackendMessage) (i : Nat) (bs : List WireBlock),
      msgs[i]? = some ⟨Role.user, WireContent.blocks bs⟩ →
      bs.filter isToolResultB ≠ [] →
      convertOne msgs i = [] := by
  intro msgs i bs hm hf
  unfold convertOne
  rw [hm]
  show userArrayMsg i bs = []
  unfold userArrayMsg
  have hfe : (bs.filter isToolResultB).isEmpty = false := by
    rcases hx : bs.filter isToolResultB with _ | _
    · exact absurd hx hf
    · rfl
  simp [hfe]

/-- Claim C2 witness: the concrete dropped message of the
counterexample input contributes nothing at index 0. -/
theorem user_toolresult_message_dropped_witness :
    convertOne
        [⟨Role.user, WireContent.blocks
          [WireBlock.text "hello", WireBlock.tool_result "t1" "ok"]⟩] 0 = [] :=
  user_toolresult_message_dropped
    [⟨Role.user, WireContent.blocks
      [WireBlock.text "hello", WireBlock.tool_result "t1" "ok"]⟩]
    0 [WireBlock.text "hello", WireBlock.tool_result "t1" "ok"]
    (by decide) (by decide)

/-- Claim C3: the converter resolves the tool-call/result pairing by
scanning the immediately following message. For every assistant message
holding a tool_use block with id `X`, the output contains that
message's tool-call part whose result is `lookupResult` of the next
message, and `lookupResult` attaches exactly the content of the first
tool_result block with `tool_use_id = X` found in the immediately
following message — parsed as JSON when parseable, the raw string
otherwise — and is absent whenever no such block exists there (no next
message, string content, or no matching block). -/
theorem toolcall_result_pairing :
    ∀ (msgs : List BackendMessage) (i : Nat) (bs : List WireBlock)
      (id name : String) (input : Json),
      msgs[i]? = some ⟨Role.assistant, WireContent.blocks bs⟩ →
      WireBlock.tool_use id name input ∈ bs →
      (∃ tm, tm ∈ convertToThreadMessages msgs ∧ tm.id = mkId i ∧
        tm.role = ThreadRole.assistant ∧
        ThreadPart.toolCall id name input (stringify input)
          (lookupResult msgs[i + 1]? id) ToolStatus.complete ∈ tm.content) ∧
      (match msgs[i + 1]? with
        | some ⟨_, WireContent.blocks next⟩ =>
          match next.find? (isToolResultFor id) with
          | some (WireBlock.tool_result _ c) =>
            lookupResult msgs[i + 1]? id = some ((parseJson c).getD (Json.str c))
          | some _ => lookupResult msgs[i + 1]? id = none
          | none => lookupResult msgs[i + 1]? id = none
        | _ => lookupResult msgs[i + 1]? id = none) := by
  intro msgs i bs id name input hm hb
  refine ⟨toolCall_mem_content msgs i bs id name input hm hb, ?_⟩
  rcases hn : msgs[i + 1]? with _ | ⟨r, content⟩
  · rfl
  · rcases content with t | next
    · rfl
    · rcases hf : next.find? (isToolResultFor id) with _ | b
      · simp only
        rw [hf]
        simp [lookupResult, hf]
      · rcases b with t | ⟨id', name', input'⟩ | ⟨tid, c⟩
        · simp only
          rw [hf]
          simp [lookupResult, hf]
        · simp only
          rw [hf]
          simp [lookupResult, hf]
        · simp only
          rw [hf]
          rcases hp : parseJson c with _ | v <;> simp [lookupResult, hf, hp]

/-- The concrete two-message conversation used to witness the pairing
behaviour of the converter. -/
def pairingDemo : List BackendMessage :=
  [⟨Role.assistant, WireContent.blocks
      [WireBlock.tool_use "t1" "search" (Json.obj [])]⟩,
   ⟨Role.user, WireContent.blocks [WireBlock.tool_result "t1" "[1,2]"]⟩]

/-- Claim C3 witness: in the concrete conversation `pairingDemo` the
assistant's tool call is paired with the parsed content of the matching
tool_result block of the immediately following message. -/
theorem toolcall_result_pairing_witness :
    (∃ tm, tm ∈ convertToThreadMessages pairingDemo ∧ tm.id = mkId 0 ∧
      tm.role = ThreadRole.assistant ∧
      ThreadPart.toolCall "t1" "search" (Json.obj []) (stringify (Json.obj []))
        (lookupResult pairingDemo[0 + 1]? "t1") ToolStatus.complete ∈ tm.content) ∧
    (match pairingDemo[0 + 1]? with
      | some (BackendMessage.mk _ (WireContent.blocks next)) =>
        match next.find? (isToolResultFor "t1") with
        | some (WireBlock.tool_result _ c) =>
          lookupResult pairingDemo[0 + 1]? "t1" = some ((parseJson c).getD (Json.str c))
        | some _ => lookupResult pairingDemo[0 + 1]? "t1" = none
        | none => lookupResult pairingDemo[0 + 1]? "t1" = none
      | _ => lookupResult pairingDemo[0 + 1]? "t1" = none) :=
  toolcall_result_pairing pairingDemo 0
    [WireBlock.tool_use "t1" "search" (Json.obj [])] "t1" "search" (Json.obj [])
    (by decide) (by decide)

/-- Claim C1 counterexample: a constructible message whose content is
two text parts does not survive the round trip — the converter joins
the text blocks of a user wire message into a single text part, so the
composite returns a one-part message different from the original. -/
theorem roundtrip_counterexample :
    convertToThreadMessages (toWire
        [⟨"msg-0", ThreadRole.user, [ThreadPart.text "a", ThreadPart.text "b"]⟩]) ≠
      [⟨"msg-0", ThreadRole.user, [ThreadPart.text "a", ThreadPart.text "b"]⟩] := by
  decide

lemma toWire_mkUserThread (ts : List String) :
    ∀ k, toWire (mkUserThread k ts) =
      ts.map (fun t => ⟨Role.user, WireContent.blocks [WireBlock.text t]⟩) := by
  induction ts with
  | nil => intro k; rfl
  | cons t ts ih =>
    intro k
    simp only [mkUserThread, toWire, List.flatMap_cons, List.map_cons]
    rw [show (toWireMsg ⟨mkId k, ThreadRole.user, [ThreadPart.text t]⟩ :
        List BackendMessage) =
      [⟨Role.user, WireContent.blocks [WireBlock.text t]⟩] from rfl]
    rw [show (mkUserThread (k + 1) ts).flatMap toWireMsg =
      toWire (mkUserThread (k + 1) ts) from rfl]
    rw [ih (k + 1)]
    rfl

lemma mkUserThread_getElem (ts : List String) :
    ∀ k i, (mkUserThread k ts)[i]? =
      (ts[i]?).map (fun t =>
        (⟨mkId (k + i), ThreadRole.user, [ThreadPart.text t]⟩ : ThreadMessage)) := by
  induction ts with
  | nil => intro k i; simp [mkUserThread]
  | cons t ts ih =>
    intro k i
    rcases i with _ | i
    · simp [mkUserThread]
    · simp only [mkUserThread, List.getElem?_cons_succ]
      rw [ih (k + 1) i]
      rw [show k + 1 + i = k + (i + 1) from by omega]

lemma mkUserThread_length (ts : List String) :
    ∀ k, (mkUserThread k ts).length = ts.length := by
  induction ts with
  | nil => intro k; rfl
  | cons t ts ih =>
    intro k
    simp [mkUserThread, ih (k + 1)]

/-- Claim C1 (amended): the round-trip law fails in general (see the
counterexample), because `convertToThreadMessages` is not surjective on
constructible messages; the round trip does hold on the normal-form
conversations the converter itself produces for plain user turns:
user messages each carrying exactly one non-empty text part under the
canonical positional ids. -/
theorem roundtrip_user_text_restricted :
    ∀ ts : List String, (∀ t ∈ ts, t ≠ "") →
      convertToThreadMessages (toWire (mkUserThread 0 ts)) = mkUserThread 0 ts := by
  intro ts hts
  rw [toWire_mkUserThread ts 0]
  unfold convertToThreadMessages
  rw [List.length_map, show ts.length = (mkUserThread 0 ts).length from
    (mkUserThread_length ts 0).symm]
  apply flatMap_range_toList
  intro i
  rw [mkUserThread_getElem ts 0 i]
  rcases hti : ts[i]? with _ | t
  · have hwi : (ts.map (fun t =>
        (⟨Role.user, WireContent.blocks [WireBlock.text t]⟩ : BackendMessage)))[i]? =
        none := by
      rw [List.getElem?_map, hti]; rfl
    unfold convertOne
    rw [hwi]
    rfl
  · have hwi : (ts.map (fun t =>
        (⟨Role.user, WireContent.blocks [WireBlock.text t]⟩ : BackendMessage)))[i]? =
        some ⟨Role.user, WireContent.blocks [WireBlock.text t]⟩ := by
      rw [List.getElem?_map, hti]; rfl
    have htne : t ≠ "" := hts t (List.getElem?_mem hti)
    unfold convertOne
    rw [hwi]
    show userArrayMsg i [WireBlock.text t] = _
    unfold userArrayMsg
    simp [isToolResultB, textOf, joinNL, htne]

/-- Claim C1 witness: a concrete two-turn user conversation with
non-empty texts survives the round trip. -/
theorem roundtrip_user_text_restricted_witness :
    convertToThreadMessages (toWire (mkUserThread 0 ["hello", "world"])) =
      mkUserThread 0 ["hello", "world"] :=
  roundtrip_user_text_restricted ["hello", "world"] (by decide)
